import Mathlib

/-!
# Verification of the invoice-processing mailbox watcher (`src/main.py`)

A shallow embedding of the parts of `src/main.py` that the specification's
claims are about, together with theorems settling those claims.

Conventions used throughout:
* Python exceptions are modelled explicitly with `Except` / `Option`; a
  function that "never raises past its boundary" is embedded as a total
  function whose error paths are ordinary return values.
* Side effects (temp-file creation and deletion, IMAP fetch / mark-seen,
  reasoning-service calls, ledger appends) are modelled as explicit effect
  traces (`List` of effect constructors) produced alongside the result.
* Nondeterministic outcomes of external collaborators (network, OS, library
  calls) are parameters of the embedded functions, so theorems quantify over
  every success / failure combination.
-/

namespace AiReceipts

/-! ## JSON-array regex of `analyze_with_anthropic` (main.py lines 366-368)

The code runs `re.search(r"\[\s*\{.*?\}\s*\]", text, re.DOTALL)`.

The pattern is embedded by unfolding Python's backtracking semantics:
* after `\[`, the greedy `\s*` can only ever stop at the maximal whitespace
  run, because `\{` matches a single non-whitespace character (shorter
  whitespace runs would have to re-match a whitespace character as `{`);
* the lazy `.*?` (DOTALL: `.` matches `\n` too) expands one character at a
  time, so the first offset at which `\}\s*\]` matches wins;
* `re.search` takes the leftmost starting position that admits a match.

`\s` is modelled as the ASCII whitespace class (space, `\t`, `\n`, `\r`,
`\x0b`, `\x0c`); non-ASCII whitespace never appears in any input considered
here. -/

def reWs (c : Char) : Bool :=
  c = ' ' || c = '\t' || c = '\n' || c = '\r' || c = '\x0b' || c = '\x0c'

/-- Length of the maximal leading whitespace run (the stop position of a
greedy `\s*` whose continuation is a non-whitespace literal). -/
def wsLen : List Char → Nat
  | [] => 0
  | c :: cs => if reWs c then wsLen cs + 1 else 0

/-- Match `\}\s*\]` at the head of the list, returning the number of
characters consumed. -/
def matchClose : List Char → Option Nat
  | [] => none
  | c :: rest =>
    if c = '}' then
      if ((rest.drop (wsLen rest)).head? = some ']') then some (wsLen rest + 2) else none
    else none

/-- Lazy `.*?\}\s*\]`: the least number of skipped characters at which
`\}\s*\]` matches, plus the length of that closing match. -/
def lazyClose : List Char → Option Nat
  | [] => none
  | c :: rest =>
    match matchClose (c :: rest) with
    | some n => some n
    | none => (lazyClose rest).map (· + 1)

/-- Match the whole pattern `\[\s*\{.*?\}\s*\]` at the head of the list,
returning the length of the match. -/
def matchHead : List Char → Option Nat
  | [] => none
  | c :: rest =>
    if c = '[' then
      if ((rest.drop (wsLen rest)).head? = some '{') then
        (lazyClose (rest.drop (wsLen rest + 1))).map (fun n => wsLen rest + 2 + n)
      else none
    else none

/-- `re.search` of the pattern: leftmost match, returned as the matched
substring (`json_match.group(0)` in the code). -/
def regexFind : List Char → Option (List Char)
  | [] => none
  | c :: rest =>
    match matchHead (c :: rest) with
    | some n => some ((c :: rest).take n)
    | none => regexFind rest

def regexFindStr (s : String) : Option String :=
  (regexFind s.data).map (fun l => String.mk l)

/-! ## `json.loads` (used at main.py line 371)

A model of Python's `json.loads` in its default (strict) configuration:
JSON whitespace is space / tab / newline / carriage return; strings reject
unescaped control characters and accept the standard escapes (a `\uXXXX`
escape is turned into the scalar with that code; surrogate-pair combining
is not modelled, no input considered here uses it); numbers follow the
JSON grammar; the non-standard literals `NaN`, `Infinity` and `-Infinity`
are accepted, as CPython's `json` does by default.  Numbers are kept as
their lexemes: no claim depends on numeric value at the JSON layer. -/

inductive Json where
  | jnull : Json
  | jbool (b : Bool) : Json
  | jnum (lexeme : String) : Json
  | jstr (s : String) : Json
  | jarr (xs : List Json) : Json
  | jobj (kvs : List (String × Json)) : Json

def jWs (c : Char) : Bool :=
  c = ' ' || c = '\t' || c = '\n' || c = '\r'

def skipJWs : List Char → List Char
  | [] => []
  | c :: cs => if jWs c then skipJWs cs else c :: cs

def hexVal (c : Char) : Option Nat :=
  if '0' ≤ c ∧ c ≤ '9' then some (c.toNat - 48)
  else if 'a' ≤ c ∧ c ≤ 'f' then some (c.toNat - 87)
  else if 'A' ≤ c ∧ c ≤ 'F' then some (c.toNat - 55)
  else none

/-- Parse the body of a JSON string (the opening quote already consumed);
returns the decoded content and the input after the closing quote. -/
def parseJStr : Nat → List Char → Option (List Char × List Char)
  | 0, _ => none
  | _ + 1, [] => none
  | fuel + 1, c :: cs =>
    if c = '"' then some ([], cs)
    else if c = '\\' then
      match cs with
      | [] => none
      | e :: cs2 =>
        if e = '"' then (parseJStr fuel cs2).map (fun p => ('"' :: p.1, p.2))
        else if e = '\\' then (parseJStr fuel cs2).map (fun p => ('\\' :: p.1, p.2))
        else if e = '/' then (parseJStr fuel cs2).map (fun p => ('/' :: p.1, p.2))
        else if e = 'b' then (parseJStr fuel cs2).map (fun p => ('\x08' :: p.1, p.2))
        else if e = 'f' then (parseJStr fuel cs2).map (fun p => ('\x0c' :: p.1, p.2))
        else if e = 'n' then (parseJStr fuel cs2).map (fun p => ('\n' :: p.1, p.2))
        else if e = 'r' then (parseJStr fuel cs2).map (fun p => ('\r' :: p.1, p.2))
        else if e = 't' then (parseJStr fuel cs2).map (fun p => ('\t' :: p.1, p.2))
        else if e = 'u' then
          match cs2 with
          | h1 :: h2 :: h3 :: h4 :: cs3 =>
            match hexVal h1, hexVal h2, hexVal h3, hexVal h4 with
            | some a, some b, some c2, some d =>
              (parseJStr fuel cs3).map
                (fun p => (Char.ofNat (a * 4096 + b * 256 + c2 * 16 + d) :: p.1, p.2))
            | _, _, _, _ => none
          | _ => none
        else none
    else if c.toNat < 32 then none
    else (parseJStr fuel cs).map (fun p => (c :: p.1, p.2))

/-- Maximal leading run of decimal digits. -/
def digitRun : List Char → List Char × List Char
  | [] => ([], [])
  | c :: cs =>
    if c.isDigit then
      let p := digitRun cs
      (c :: p.1, p.2)
    else ([], c :: cs)

/-- Lex a JSON number (`-?(0|[1-9]\d*)(\.\d+)?([eE][-+]?\d+)?`), returning
the lexeme and the rest.  A dot or exponent marker not followed by a digit
is not part of the number, as in CPython's scanner regex. -/
def lexNum (l : List Char) : Option (List Char × List Char) :=
  let sgn : List Char × List Char :=
    match l with
    | '-' :: r => (['-'], r)
    | _ => ([], l)
  match sgn.2 with
  | [] => none
  | c :: cs =>
    if ¬ c.isDigit then none
    else
      let ip : List Char × List Char :=
        if c = '0' then ([c], cs) else digitRun (c :: cs)
      let fp : List Char × List Char :=
        match ip.2 with
        | '.' :: d :: ds =>
          if d.isDigit then
            let run := digitRun (d :: ds)
            ('.' :: run.1, run.2)
          else ([], ip.2)
        | _ => ([], ip.2)
      let ep : List Char × List Char :=
        match fp.2 with
        | e :: '+' :: d :: ds =>
          if (e = 'e' || e = 'E') && d.isDigit then
            let run := digitRun (d :: ds)
            (e :: '+' :: run.1, run.2)
          else ([], fp.2)
        | e :: '-' :: d :: ds =>
          if (e = 'e' || e = 'E') && d.isDigit then
            let run := digitRun (d :: ds)
            (e :: '-' :: run.1, run.2)
          else ([], fp.2)
        | e :: d :: ds =>
          if (e = 'e' || e = 'E') && d.isDigit then
            let run := digitRun (d :: ds)
            (e :: run.1, run.2)
          else ([], fp.2)
        | _ => ([], fp.2)
      some (sgn.1 ++ ip.1 ++ fp.1 ++ ep.1, ep.2)

/-- Check that `pre` is literally at the head of `l`; return the rest. -/
def expectLit : List Char → List Char → Option (List Char)
  | [], l => some l
  | p :: ps, c :: cs => if c = p then expectLit ps cs else none
  | _ :: _, [] => none

mutual

/-- Parse one JSON value at the head of `l` (leading whitespace already
skipped). -/
def parseValue : Nat → List Char → Option (Json × List Char)
  | 0, _ => none
  | _ + 1, [] => none
  | fuel + 1, c :: cs =>
    if c = '"' then
      (parseJStr (fuel + 1) cs).map (fun p => (Json.jstr (String.mk p.1), p.2))
    else if c = '[' then parseArrItems fuel (skipJWs cs)
    else if c = '{' then parseObjItems fuel (skipJWs cs)
    else if c = 't' then (expectLit ['r', 'u', 'e'] cs).map (fun r => (Json.jbool true, r))
    else if c = 'f' then (expectLit ['a', 'l', 's', 'e'] cs).map (fun r => (Json.jbool false, r))
    else if c = 'n' then (expectLit ['u', 'l', 'l'] cs).map (fun r => (Json.jnull, r))
    else if c = 'N' then (expectLit ['a', 'N'] cs).map (fun r => (Json.jnum "NaN", r))
    else if c = 'I' then
      (expectLit ['n', 'f', 'i', 'n', 'i', 't', 'y'] cs).map (fun r => (Json.jnum "Infinity", r))
    else if c = '-' then
      match expectLit ['I', 'n', 'f', 'i', 'n', 'i', 't', 'y'] cs with
      | some r => some (Json.jnum "-Infinity", r)
      | none => (lexNum (c :: cs)).map (fun p => (Json.jnum (String.mk p.1), p.2))
    else if c.isDigit then
      (lexNum (c :: cs)).map (fun p => (Json.jnum (String.mk p.1), p.2))
    else none

/-- Parse the items of an array, positioned (whitespace skipped) at the
first item or at the closing bracket. -/
def parseArrItems : Nat → List Char → Option (Json × List Char)
  | 0, _ => none
  | _ + 1, [] => none
  | fuel + 1, c :: cs =>
    if c = ']' then some (Json.jarr [], cs)
    else
      match parseValue fuel (c :: cs) with
      | none => none
      | some (v, r) => parseArrTail fuel v [] (skipJWs r)

/-- After an array item: expect `,` and another item, or `]`. -/
def parseArrTail : Nat → Json → List Json → List Char → Option (Json × List Char)
  | 0, _, _, _ => none
  | _ + 1, _, _, [] => none
  | fuel + 1, v, acc, c :: cs =>
    if c = ']' then some (Json.jarr (v :: acc).reverse, cs)
    else if c = ',' then
      match parseValue fuel (skipJWs cs) with
      | none => none
      | some (v2, r) => parseArrTail fuel v2 (v :: acc) (skipJWs r)
    else none

/-- Parse the members of an object, positioned (whitespace skipped) at the
first key or at the closing brace. -/
def parseObjItems : Nat → List Char → Option (Json × List Char)
  | 0, _ => none
  | _ + 1, [] => none
  | fuel + 1, c :: cs =>
    if c = '}' then some (Json.jobj [], cs)
    else if c = '"' then
      match parseJStr (fuel + 1) cs with
      | none => none
      | some (k, r) =>
        match skipJWs r with
        | ':' :: r2 =>
          match parseValue fuel (skipJWs r2) with
          | none => none
          | some (v, r3) => parseObjTail fuel (String.mk k, v) [] (skipJWs r3)
        | _ => none
    else none

/-- After an object member: expect `,` and another member, or `}`. -/
def parseObjTail : Nat → (String × Json) → List (String × Json) → List Char →
    Option (Json × List Char)
  | 0, _, _, _ => none
  | _ + 1, _, _, [] => none
  | fuel + 1, kv, acc, c :: cs =>
    if c = '}' then some (Json.jobj (kv :: acc).reverse, cs)
    else if c = ',' then
      match skipJWs cs with
      | '"' :: r =>
        match parseJStr (fuel + 1) r with
        | none => none
        | some (k, r2) =>
          match skipJWs r2 with
          | ':' :: r3 =>
            match parseValue fuel (skipJWs r3) with
            | none => none
            | some (v, r4) => parseObjTail fuel (String.mk k, v) (kv :: acc) (skipJWs r4)
          | _ => none
      | _ => none
    else none

end

/-- `json.loads`: parse a complete document, allowing surrounding
whitespace and rejecting trailing data. -/
def json_loads (s : String) : Option Json :=
  let l := skipJWs s.data
  match parseValue (2 * l.length + 4) l with
  | some (v, rest) => if skipJWs rest = [] then some v else none
  | none => none

/-! ## JSON extraction of `analyze_with_anthropic` (main.py lines 364-380)

The code searches the response for the array regex and, if a match is
found, runs `json.loads` on the matched substring; it returns the loaded
line items on success and `[]` both when no match is found and when
`json.loads` raises `JSONDecodeError`.  There is no attempt to
`json.loads` the whole response first. -/

def analyze_extract (resp : String) : List Json :=
  match regexFindStr resp with
  | some m =>
    match json_loads m with
    | some (Json.jarr xs) => xs
    | some _ => []
    | none => []
  | none => []

/-- Modelled from the spec (§4.4 step 3), for comparison with
`analyze_extract`: "first attempt a direct parse of the whole response; on
failure, search for an array pattern embedded in surrounding text or a
fenced code block and parse that substring".  The direct parse succeeds
when the whole response is a JSON array; otherwise this falls back to the
embedded-pattern search that the code performs. -/
def extract_direct_first (resp : String) : List Json :=
  match json_loads resp with
  | some (Json.jarr xs) => xs
  | _ => analyze_extract resp

/-! ## `float()` coercion (main.py line 409)

Python's `float(str)`: strip surrounding whitespace, optional sign, then a
decimal literal (`digits [. digits] [exp]`, with underscores allowed
strictly between digits) or a case-insensitive `inf` / `infinity` / `nan`.
String overflow saturates to an infinity (`float("1e999") == inf`, no
exception).  Not modelled: non-ASCII decimal digits and non-ASCII
whitespace (which CPython also accepts), binary rounding of finite values
(kept as exact rationals) and subnormal underflow; no claim depends on
these. -/

inductive PyFloat where
  | fin (q : Rat)
  | pinf
  | ninf
  | nan
deriving DecidableEq

def headDigit : List Char → Bool
  | c :: _ => c.isDigit
  | [] => false

/-- Maximal run of decimal digits in which an underscore may sit strictly
between two digits; returns the digits (underscores removed) and the rest.
The run never consumes a trailing or doubled underscore. -/
def digitRunU : List Char → List Char × List Char
  | '_' :: c :: cs =>
    if c.isDigit then
      let p := digitRunU cs
      (c :: p.1, p.2)
    else ([], '_' :: c :: cs)
  | c :: cs =>
    if c.isDigit then
      let p := digitRunU cs
      (c :: p.1, p.2)
    else ([], c :: cs)
  | [] => ([], [])

def dval (c : Char) : Nat := c.toNat - 48

def natOfDigits (l : List Char) : Nat :=
  l.foldl (fun a c => a * 10 + dval c) 0

def stripPyWs (l : List Char) : List Char :=
  ((l.dropWhile reWs).reverse.dropWhile reWs).reverse

/-- Smallest magnitude at which IEEE-754 double conversion rounds to an
infinity (`2^1024 - 2^970`, half an ulp above the largest finite double). -/
def ovfBound : Rat := mkRat ((2 ^ 1024 - 2 ^ 970 : Nat) : Int) 1

/-- Finite rational `mantissa * 10^scale`, saturated to an infinity at the
double-overflow bound, as CPython's string-to-double conversion does.
Built from the kernel-computable `mkRat` / `Rat.blt` primitives. -/
def mkPyFloat (neg : Bool) (mantissa : Nat) (scale : Int) : PyFloat :=
  let absq : Rat :=
    if 0 ≤ scale then mkRat ((mantissa * 10 ^ scale.toNat : Nat) : Int) 1
    else mkRat (mantissa : Int) (10 ^ (-scale).toNat)
  if absq.blt ovfBound then .fin (if neg then Rat.neg absq else absq)
  else (if neg then .ninf else .pinf)

/-- `float(s)` for a string argument: `some` value on success, `none` for
`ValueError`. -/
def pyFloatOfChars (l0 : List Char) : Option PyFloat :=
  let l := stripPyWs l0
  match l with
  | [] => none
  | _ =>
    let sgn : Bool × List Char :=
      match l with
      | '+' :: r => (false, r)
      | '-' :: r => (true, r)
      | _ => (false, l)
    let low := sgn.2.map Char.toLower
    if low = ['i', 'n', 'f'] || low = "infinity".data then
      some (if sgn.1 then .ninf else .pinf)
    else if low = ['n', 'a', 'n'] then some .nan
    else
      let ipr : List Char × List Char :=
        if headDigit sgn.2 then digitRunU sgn.2 else ([], sgn.2)
      let fpr : List Char × List Char :=
        match ipr.2 with
        | '.' :: r => if headDigit r then digitRunU r else ([], r)
        | _ => ([], ipr.2)
      let dotted : Bool := match ipr.2 with | '.' :: _ => true | _ => false
      if ipr.1 = [] && fpr.1 = [] then none
      else
        let rest2 := if dotted then fpr.2 else ipr.2
        match rest2 with
        | [] => some (mkPyFloat sgn.1 (natOfDigits (ipr.1 ++ fpr.1)) (-(fpr.1.length : Int)))
        | e :: r =>
          if e = 'e' || e = 'E' then
            let esgn : Int × List Char :=
              match r with
              | '+' :: rr => (1, rr)
              | '-' :: rr => (-1, rr)
              | _ => (1, r)
            if headDigit esgn.2 then
              let p := digitRunU esgn.2
              if p.2 = [] then
                some (mkPyFloat sgn.1 (natOfDigits (ipr.1 ++ fpr.1))
                  (esgn.1 * (natOfDigits p.1 : Int) - (fpr.1.length : Int)))
              else none
            else none
          else none

def pyFloatOfStr (s : String) : Option PyFloat :=
  pyFloatOfChars s.data

/-! ## Line-item values and `float(item["amount"])`

Line items come out of `json.loads`; per the prompt's mandated shape their
fields are JSON strings or numbers, and the model restricts field values
to that universe (`JVal`).  A JSON number has already been converted by
`json.loads`: a lexeme with a fraction or exponent is a Python float
(huge ones are already `inf`, so `float()` of them cannot raise), while an
integer lexeme is a Python int, for which `float()` raises
`OverflowError` — not a `ValueError`/`KeyError` — when the value exceeds
the double range. -/

inductive JVal where
  | vstr (s : String)
  | vnum (lexeme : String)
deriving DecidableEq

inductive FloatExc where
  | valueErr (s : String)
  | overflowErr
deriving DecidableEq

/-- `float()` applied to a JSON-number lexeme as `json.loads` delivered it. -/
def jsonNumToFloat (lex : String) : Except FloatExc PyFloat :=
  if lex = "NaN" then .ok .nan
  else if lex = "Infinity" then .ok .pinf
  else if lex = "-Infinity" then .ok .ninf
  else if lex.data.contains '.' || lex.data.contains 'e' || lex.data.contains 'E' then
    match pyFloatOfChars lex.data with
    | some f => .ok f
    | none => .ok .nan
  else
    match pyFloatOfChars lex.data with
    | some (.fin q) => .ok (.fin q)
    | _ => .error .overflowErr

/-- `float(item["amount"])` over the modelled value universe. -/
def jvalToFloat : JVal → Except FloatExc PyFloat
  | .vstr s =>
    match pyFloatOfStr s with
    | some f => .ok f
    | none => .error (.valueErr s)
  | .vnum lex => jsonNumToFloat lex

/-! ## `datetime.strptime(item["date"], "%Y-%m-%d")` (main.py line 405)

CPython's `strptime` compiles the format to the anchored regex
`(?P<Y>\d\d\d\d)-(?P<m>1[0-2]|0[1-9]|[1-9])-(?P<d>3[01]|[12]\d|0[1-9]|[1-9])`
and requires it to consume the whole string; the matched fields must then
form a valid `datetime` (`MINYEAR = 1`, day bounded by the month length).
The regex alternations are resolved with ordinary backtracking; since `-`
is not a digit, a two-digit month (or day) alternative and the one-digit
alternative can never both complete a match, so a greedy two-digit try
with a one-digit fallback is exact. -/

def monthOk2 (a b : Char) : Bool :=
  (a = '1' && (b = '0' || b = '1' || b = '2')) || (a = '0' && b.isDigit && b ≠ '0')

def monthOk1 (a : Char) : Bool := a.isDigit && a ≠ '0'

def dayOk2 (a b : Char) : Bool :=
  (a = '3' && (b = '0' || b = '1')) || ((a = '1' || a = '2') && b.isDigit) ||
    (a = '0' && b.isDigit && b ≠ '0')

/-- Day field, which must end the string. -/
def parseDay : List Char → Option Nat
  | [a] => if monthOk1 a then some (dval a) else none
  | [a, b] => if dayOk2 a b then some (10 * dval a + dval b) else none
  | _ => none

/-- Two-digit month `ab` followed by the literal `-` and the day field. -/
def parseM2D (a b : Char) : List Char → Option (Nat × Nat)
  | c :: rest2 =>
    if c = '-' then
      if monthOk2 a b then
        (parseDay rest2).map (fun d => (10 * dval a + dval b, d))
      else none
    else none
  | [] => none

/-- Month field followed by the literal `-` and the day field.  The
one-digit-month case is exactly "the second character is the dash", so the
two alternatives never compete. -/
def parseMD : List Char → Option (Nat × Nat)
  | a :: b :: rest =>
    if b = '-' then
      if monthOk1 a then (parseDay rest).map (fun d => (dval a, d)) else none
    else parseM2D a b rest
  | _ => none

def isLeap (y : Nat) : Bool := (y % 4 = 0 && y % 100 ≠ 0) || y % 400 = 0

def daysInMonth (y m : Nat) : Nat :=
  if m = 2 then (if isLeap y then 29 else 28)
  else if m = 4 || m = 6 || m = 9 || m = 11 then 30
  else 31

def strptimeList : List Char → Option (Nat × Nat × Nat)
  | y1 :: y2 :: y3 :: y4 :: c5 :: rest =>
    if y1.isDigit && y2.isDigit && y3.isDigit && y4.isDigit then
      if c5 = '-' then
        match parseMD rest with
        | some (m, d) =>
          if 1 ≤ natOfDigits [y1, y2, y3, y4] &&
              d ≤ daysInMonth (natOfDigits [y1, y2, y3, y4]) m then
            some (natOfDigits [y1, y2, y3, y4], m, d)
          else none
        | none => none
      else none
    else none
  | _ => none

def strptime_Ymd (s : String) : Option (Nat × Nat × Nat) :=
  strptimeList s.data

def digitChar (n : Nat) : Char := Char.ofNat (48 + n)

/-- Decimal digits of `n`, most significant first (fuel-based so that it
reduces definitionally; the fuel `n + 1` always suffices). -/
def natDecAux : Nat → Nat → List Char
  | 0, _ => []
  | fuel + 1, n =>
    if n < 10 then [digitChar n]
    else natDecAux fuel (n / 10) ++ [digitChar (n % 10)]

def natDec (n : Nat) : List Char := natDecAux (n + 1) n

/-- `date_obj.strftime("%Y-%m-%d")` (main.py line 406).  `%m` and `%d` are
zero-padded to two digits; `%Y` is the year as a plain decimal number —
glibc (the libc of the platform this daemon runs on) does not zero-pad
`%Y`, so years below 1000 print with fewer than four digits.  (Some other
platforms pad `%Y`; CPython documents `strftime` as platform-dependent.) -/
def strftime_Ymd (y m d : Nat) : String :=
  String.mk (natDec y) ++ "-" ++
    String.mk [digitChar (m / 10 % 10), digitChar (m % 10)] ++ "-" ++
    String.mk [digitChar (d / 10 % 10), digitChar (d % 10)]

/-- The `YYYY-MM-DD` shape: exactly four digits, dash, two digits, dash,
two digits. -/
def normDateShape (s : String) : Bool :=
  match s.data with
  | [a, b, c, d, '-', e1, f1, '-', g, h] =>
    a.isDigit && b.isDigit && c.isDigit && d.isDigit && e1.isDigit && f1.isDigit &&
      g.isDigit && h.isDigit
  | _ => false

/-! ## `add_to_spreadsheet` (main.py lines 395-431)

One line item is a dict; the model records each of the five keys the code
reads as present (`some`) or missing (`none`).  Per item the code runs an
inner `try` whose `except (ValueError, KeyError)` appends to `errors` and
continues; any other exception — `TypeError` from `strptime` on a
non-string date, `OverflowError` from `float` on a huge int,
a `gspread` error from `append_row` — escapes to the outer `except`,
which returns the rows appended so far together with a single
"General error" entry, discarding the per-item `errors` collected so far.
The outer `except Exception` is why the function never raises: every
error path ends in a `return`. -/

structure Item where
  date : Option JVal
  description : Option JVal
  amount : Option JVal
  category : Option JVal
  property : Option JVal
deriving DecidableEq

structure Row where
  date : String
  description : JVal
  amount : PyFloat
  category : JVal
  property : JVal
deriving DecidableEq

inductive EMsg where
  | badDate (s : String)
  | badFloat (s : String)
  | keyMissing (k : String)
deriving DecidableEq

inductive FatalMsg where
  | typeErr
  | overflowErr
  | storeErr
deriving DecidableEq

inductive ItemErr where
  | valueKey (m : EMsg)
  | fatal (m : FatalMsg)
deriving DecidableEq

inductive ErrEntry where
  | itemE (it : Item) (m : EMsg)
  | general (m : FatalMsg)
deriving DecidableEq

/-- The body of the per-item `try`, up to and excluding `append_row`:
evaluation order is `item["date"]`, `strptime`, `item["amount"]`,
`float`, then the `row_data` list `[formatted_date, item["description"],
amount, item["category"], item.get("property", "")]`. -/
def processItem (it : Item) : Except ItemErr Row :=
  match it.date with
  | none => .error (.valueKey (.keyMissing "date"))
  | some (.vnum _) => .error (.fatal .typeErr)
  | some (.vstr ds) =>
    match strptime_Ymd ds with
    | none => .error (.valueKey (.badDate ds))
    | some (y, m, d) =>
      match it.amount with
      | none => .error (.valueKey (.keyMissing "amount"))
      | some av =>
        match jvalToFloat av with
        | .error (.valueErr s) => .error (.valueKey (.badFloat s))
        | .error .overflowErr => .error (.fatal .overflowErr)
        | .ok amt =>
          match it.description with
          | none => .error (.valueKey (.keyMissing "description"))
          | some desc =>
            match it.category with
            | none => .error (.valueKey (.keyMissing "category"))
            | some cat =>
              .ok ⟨strftime_Ymd y m d, desc, amt, cat, it.property.getD (.vstr "")⟩

/-- The loop of `add_to_spreadsheet`.  `storeFails k` tells whether the
`k`-th `append_row` call raises (the store-level failure of §4.5); `added`
and `errs` are the accumulators, `k` counts `append_row` calls made so
far. -/
def addGo (storeFails : Nat → Bool) :
    List Item → List Row → List ErrEntry → Nat → List Row × List ErrEntry
  | [], added, errs, _ => (added, errs)
  | it :: rest, added, errs, k =>
    match processItem it with
    | .error (.valueKey m) => addGo storeFails rest added (errs ++ [.itemE it m]) k
    | .error (.fatal m) => (added, [.general m])
    | .ok row =>
      if storeFails k then (added, [.general .storeErr])
      else addGo storeFails rest (added ++ [row]) errs (k + 1)

def add_to_spreadsheet (storeFails : Nat → Bool) (items : List Item) :
    List Row × List ErrEntry :=
  addGo storeFails items [] [] 0

/-! ## `extract_text_from_attachment` (main.py lines 139-185)

The function dispatches on the declared mime type; the whole body sits in
one `try` whose `except Exception` returns
`f"[Error extracting text: {e}]"`.  The outcome of the format-specific
library call (file open + PyPDF2 / python-docx / text read / csv read) is
a parameter: either the decoded pieces or the message of the exception it
raised.  An exception thrown mid-branch discards the partial `text`, so a
whole-branch outcome is faithful. -/

def docxMime : String :=
  "application/vnd.openxmlformats-officedocument.wordprocessingml.document"

structure AttOutcome where
  pdfPages : Except String (List String)
  docxParas : Except String (List String)
  txtRead : Except String String
  csvRows : Except String (List (List String))

def errPlaceholder (e : String) : String := "[Error extracting text: " ++ e ++ "]"

/-- Python's `s.startswith(pre)`. -/
def strStarts (s pre : String) : Bool := pre.data.isPrefixOf s.data

def extract_text_from_attachment (mime : String) (oc : AttOutcome) : String :=
  if mime = "application/pdf" then
    match oc.pdfPages with
    | .ok pages => String.join (pages.map (fun p => p ++ "\n\n"))
    | .error e => errPlaceholder e
  else if mime = docxMime then
    match oc.docxParas with
    | .ok paras => String.join (paras.map (fun p => p ++ "\n"))
    | .error e => errPlaceholder e
  else if mime = "text/plain" then
    match oc.txtRead with
    | .ok s => s
    | .error e => errPlaceholder e
  else if mime = "text/csv" then
    match oc.csvRows with
    | .ok rows => String.join (rows.map (fun r => String.intercalate ", " r ++ "\n"))
    | .error e => errPlaceholder e
  else if strStarts mime "image/" then "[This is an image attachment]"
  else "[Attachment of type " ++ mime ++ "]"

/-! ## `get_email_content` (main.py lines 187-276) as an effect trace

Effects in program order: the IMAP `fetch`, one temporary-file creation
per materialized attachment (`tempfile.NamedTemporaryFile`, line 236),
and the `mail.store(id, "+FLAGS", "\\Seen")` mark (line 257), which the
code only reaches after every header has been decoded and every part
walked.  A non-OK fetch status returns `None` before any of that; an
exception anywhere in the decode (header charset lookup, message parsing,
part walking) is caught by the outer `except`, which returns `None` —
without reaching the mark.  Temporary paths are modelled as indices in
creation order. -/

inductive PEff where
  | fetchCall
  | createTmp (path : Nat)
  | markSeen
  | reasonCall
  | releaseTmp (path : Nat)
deriving DecidableEq

/-- One MIME part, as the walk at lines 208-246 sees it: its content type,
whether the string of its `Content-Disposition` contains `"attachment"`,
and its filename header (`none` when absent; `some ""` is falsy in
Python, like `None`). -/
structure Part where
  ctype : String
  dispAttach : Bool
  filename : Option String
deriving DecidableEq

def truthyName : Option String → Bool
  | none => false
  | some s => !(s = "")

/-- A part is materialized to a temporary file iff it is not taken as body
text (`text/plain` without attachment disposition), enters the attachment
branch (`"attachment" in content_disposition or part.get_filename()`) and
has a truthy filename. -/
def isMaterialized (p : Part) : Bool :=
  if p.ctype = "text/plain" && !p.dispAttach then false
  else if p.dispAttach || truthyName p.filename then truthyName p.filename
  else false

structure Attachment where
  path : Nat
  mime : String
  filename : String
deriving DecidableEq

/-- The attachments list built by the walk: one entry per materialized
part, with temp paths numbered in order of creation. -/
def materialize (parts : List Part) : List Attachment :=
  ((parts.filter isMaterialized).enum.map
    (fun pi => ⟨pi.1, pi.2.ctype, (pi.2.filename.getD "")⟩))

def createEffs (parts : List Part) : List PEff :=
  (materialize parts).map (fun a => .createTmp a.path)

structure EmailData where
  attachments : List Attachment
deriving DecidableEq

/-- Outcome of the fetch + decode of one message.  `exnAfter done msg`:
some step raised after the walk had materialized the parts in `done` (a
prefix of the message's parts); `okDec parts`: the whole decode
succeeded. -/
inductive FetchRes where
  | nonOK
  | exnAfter (done : List Part) (msg : String)
  | okDec (parts : List Part)

def get_email_content : FetchRes → Option EmailData × List PEff
  | .nonOK => (none, [.fetchCall])
  | .exnAfter done _ => (none, .fetchCall :: createEffs done)
  | .okDec parts => (some ⟨materialize parts⟩, .fetchCall :: createEffs parts ++ [.markSeen])

/-- `process_pending_emails` (main.py lines 493-501): every id found by the
scan is attempted; `process_new_message` catches every exception, so a
failing message never stops the loop.  Recorded here as the per-message
success of `get_email_content`. -/
def processPendingOutcomes (res : Nat → FetchRes) (ids : List Nat) : List Bool :=
  ids.map (fun i => ((get_email_content (res i)).1).isSome)

/-! ## `analyze_with_anthropic` (main.py lines 278-393) as an effect trace

Per attachment the extraction runs inside its own `try` (placeholder text
on exception — `extRes` gives each attachment's outcome); the API call
(one `reasonCall`) may raise, in which case the outer `except` returns
`[]`; the `finally` at lines 385-393 unlinks every attachment path
regardless, each unlink inside its own `try`.  So the released paths are
exactly the attachment paths, on the success path and on every error
path. -/

inductive ExtRes where
  | extOk (text : String)
  | extRaise (msg : String)

inductive ApiRes where
  | apiOk (responseText : String)
  | apiRaise (msg : String)

/-- The `attachment_texts` list of lines 282-306: filename paired with the
extracted text, or with the inner-`except` placeholder when the
extraction call raised. -/
def attachmentTexts (extRes : Nat → ExtRes) (ed : EmailData) : List (String × String) :=
  ed.attachments.map (fun a =>
    (a.filename,
      match extRes a.path with
      | .extOk t => t
      | .extRaise m => "[Error extracting content: " ++ m ++ "]"))

def analyze_with_anthropic (extRes : Nat → ExtRes) (api : ApiRes) (ed : EmailData) :
    List (String × String) × List Json × List PEff :=
  let items : List Json :=
    match api with
    | .apiOk resp => analyze_extract resp
    | .apiRaise _ => []
  (attachmentTexts extRes ed, items,
    .reasonCall :: ed.attachments.map (fun a => .releaseTmp a.path))

def releasedPaths (effs : List PEff) : List Nat :=
  effs.filterMap (fun e => match e with | .releaseTmp p => some p | _ => none)

def createdPaths (effs : List PEff) : List Nat :=
  effs.filterMap (fun e => match e with | .createTmp p => some p | _ => none)

/-! ## `listen_for_emails` (main.py lines 511-566) as a trace function

The outer `while reconnect_attempts < MAX_RECONNECT_ATTEMPTS` loop: a
failed `connect_to_gmail` increments the counter and retries; a successful
connect resets the counter to zero, selects the inbox, runs one
`process_pending_emails` scan, then enters the IDLE wait loop (each
iteration: `idle` wait, scan, `noop`).  A failed `noop` breaks back to the
outer loop with the counter still at its reset value 0; an exception
anywhere in the session is caught by the outer `except`, which increments
the counter (0 + 1) and retries.  When the counter reaches the maximum
the loop exits to the critical "Failed to reconnect" log and the function
returns: the terminal `Failed` state, with no further connection
attempts.  The script of connect / session outcomes is a parameter; a
trace of actions is returned together with the final status. -/

def MAX_RECONNECT_ATTEMPTS : Nat := 5

inductive SessEnd where
  | noopFail
  | exnStop
deriving DecidableEq

/-- What one successfully-connected session does: `selectExn` = the
`select`/scan raised before the scan completed; `loopRun iters stop` = the
initial scan ran, then `iters` complete wait iterations, ended by `stop`. -/
inductive Sess where
  | selectExn
  | loopRun (iters : Nat) (stop : SessEnd)
deriving DecidableEq

inductive ConnRes where
  | connFail
  | connOk (s : Sess)
deriving DecidableEq

inductive Act where
  | attemptConn
  | scanUnread
  | waitIdle
deriving DecidableEq

inductive LifeOut where
  | failedTerminal
  | scriptEnd
deriving DecidableEq

def waitTrace : Nat → List Act
  | 0 => []
  | n + 1 => .waitIdle :: .scanUnread :: waitTrace n

/-- Actions of one connected session after the `attemptConn`. -/
def sessTrace : Sess → List Act
  | .selectExn => []
  | .loopRun iters .noopFail => .scanUnread :: (waitTrace iters ++ [.waitIdle, .scanUnread])
  | .loopRun iters .exnStop => .scanUnread :: waitTrace iters

/-- Value of `reconnect_attempts` after the session ends: reset to zero on
the successful connect, plus one if the session ended in the outer
`except`. -/
def afterSess : Sess → Nat
  | .selectExn => 1
  | .loopRun _ .noopFail => 0
  | .loopRun _ .exnStop => 1

def lifecycleRun (max : Nat) : Nat → List ConnRes → List Act × LifeOut
  | n, [] => if max ≤ n then ([], .failedTerminal) else ([], .scriptEnd)
  | n, e :: rest =>
    if max ≤ n then ([], .failedTerminal)
    else
      match e with
      | .connFail =>
        let r := lifecycleRun max (n + 1) rest
        (.attemptConn :: r.1, r.2)
      | .connOk s =>
        let r := lifecycleRun max (afterSess s) rest
        (.attemptConn :: (sessTrace s ++ r.1), r.2)

/-! ## Dedup Tracker (spec §4.6, §3 ProcessedRecord, §8)

Modelled from the spec: `src/main.py` contains no Dedup Tracker — the
spec lists it as an optional component (§2) — so `has_processed` and the
guarded processing step are taken from the spec's words: a record
`(message_id, timestamp, subject, status)` per fully attempted message;
"Existence of a record for an id is the sole idempotence signal —
reprocessing is skipped if a record exists, regardless of status." -/

structure ProcessedRecord where
  message_id : String
  timestamp : String
  subject : String
  statusOk : Bool
deriving DecidableEq

/-- Modelled from the spec (§4.6): membership scan of the append-only
table, by message id alone. -/
def has_processed (recs : List ProcessedRecord) (id : String) : Bool :=
  recs.any (fun r => r.message_id = id)

inductive GuardEff where
  | reasonInvoke
  | ledgerAppend
  | notifySend
  | markRecord
deriving DecidableEq

/-- Modelled from the spec (§2 control flow with the optional Dedup
Tracker, §8 idempotence): the per-message pipeline skips entirely when a
processed-record exists for the id. -/
def process_with_dedup (recs : List ProcessedRecord) (id : String) : List GuardEff :=
  if has_processed recs id then []
  else [.reasonInvoke, .ledgerAppend, .notifySend, .markRecord]

/-- Decidable equality of `Except` results, for concrete evaluation. -/
instance exceptDecEq {A B : Type} [DecidableEq A] [DecidableEq B] :
    DecidableEq (Except A B) := fun x y =>
  match x, y with
  | .error a, .error b =>
    if h : a = b then .isTrue (by rw [h]) else .isFalse (fun hh => by cases hh; exact h rfl)
  | .ok a, .ok b =>
    if h : a = b then .isTrue (by rw [h]) else .isFalse (fun hh => by cases hh; exact h rfl)
  | .error _, .ok _ => .isFalse (fun hh => by cases hh)
  | .ok _, .error _ => .isFalse (fun hh => by cases hh)

/-! ## Concrete fixtures used by witnesses and counterexamples -/

def wGood1 : Item :=
  ⟨some (.vstr "2024-03-01"), some (.vstr "Electricity"), some (.vnum "-120.00"),
    some (.vstr "Utilities"), some (.vstr "")⟩

def wGood2 : Item :=
  ⟨some (.vstr "2024-3-1"), some (.vstr "Rent"), some (.vnum "850.50"),
    some (.vstr "Rent"), some (.vstr "47 Market St")⟩

def wBadAmt : Item :=
  ⟨some (.vstr "2024-03-02"), some (.vstr "Water"), some (.vstr "N/A"),
    some (.vstr "Utilities"), some (.vstr "")⟩

def wBadDate : Item :=
  ⟨some (.vstr "03/01/2024"), some (.vstr "Gas"), some (.vnum "-42.00"),
    some (.vstr "Utilities"), some (.vstr "")⟩

def wNumDate : Item :=
  ⟨some (.vnum "20240301"), some (.vstr "Gas"), some (.vnum "-42.00"),
    some (.vstr "Utilities"), some (.vstr "")⟩

def wNoProp : Item :=
  ⟨some (.vstr "2024-03-01"), some (.vstr "Electricity"), some (.vnum "-120.00"),
    some (.vstr "Utilities"), none⟩

def wNoDesc : Item :=
  ⟨some (.vstr "2024-03-01"), none, some (.vnum "-120.00"), some (.vstr "Utilities"),
    some (.vstr "")⟩

def wYearOne : Item :=
  ⟨some (.vstr "0001-01-01"), some (.vstr "Ancient levy"), some (.vnum "1.00"),
    some (.vstr "Misc"), some (.vstr "")⟩

def wRow1 : Row :=
  ⟨"2024-03-01", .vstr "Electricity", .fin (mkRat (-120) 1), .vstr "Utilities", .vstr ""⟩

def wRow2 : Row :=
  ⟨"2024-03-01", .vstr "Rent", .fin (mkRat 1701 2), .vstr "Rent", .vstr "47 Market St"⟩

/-- A response in which the lazy regex match cuts inside a string literal,
so the matched substring is not valid JSON even though the whole response
is. -/
def c1resp : String := "[\x7b\"a\": \"\x7d ]\"\x7d]"

def c1arr : String := "[\x7b\"date\": \"2024-03-01\", \"amount\": -120.00\x7d]"

def c1fencePre : String := "```json\n"

def c1fencePost : String := "\n```"

def c1prosePre : String := "Here are the line items I extracted:\n"

def c1prosePost : String := "\nLet me know if you need anything else."

/-! ## Theorems -/

set_option maxRecDepth 100000

/-- C4: for every message id for which `has_processed` is true, processing
the message performs neither a reasoning-service invocation nor a ledger
append; and `has_processed` depends only on the recorded ids, not on the
recorded statuses. -/
theorem C4_dedup_idempotence :
    ∀ (recs : List ProcessedRecord) (id : String),
      has_processed recs id = true →
      (GuardEff.reasonInvoke ∉ process_with_dedup recs id ∧
        GuardEff.ledgerAppend ∉ process_with_dedup recs id) ∧
      ∀ (f : ProcessedRecord → Bool),
        has_processed (recs.map (fun r => { r with statusOk := f r })) id =
          has_processed recs id := by
  intro recs id h
  refine ⟨⟨?_, ?_⟩, ?_⟩
  · simp [process_with_dedup, h]
  · simp [process_with_dedup, h]
  · intro f
    simp only [has_processed, List.any_map]
    exact congrArg recs.any (funext fun r => rfl)

/-- Witness for C4 at a concrete record table. -/
theorem C4_dedup_idempotence_witness :
    has_processed [⟨"msg-1", "2024-03-01", "Utility Bill", false⟩] "msg-1" = true ∧
    GuardEff.reasonInvoke ∉
      process_with_dedup [⟨"msg-1", "2024-03-01", "Utility Bill", false⟩] "msg-1" :=
  ⟨by decide, (C4_dedup_idempotence _ _ (by decide)).1.1⟩

/-- C8: the Document Extractor is total (its model is a plain function to
`String`); a decode/parsing exception in any of the four decoded formats
yields the placeholder naming the failure, an `image/*` type yields the
fixed image placeholder, and any other type yields the placeholder naming
the declared format. -/
theorem C8_extractor_total :
    (∀ (mime : String) (oc : AttOutcome) (e : String),
        ((mime = "application/pdf" ∧ oc.pdfPages = .error e) ∨
          (mime = docxMime ∧ oc.docxParas = .error e) ∨
          (mime = "text/plain" ∧ oc.txtRead = .error e) ∨
          (mime = "text/csv" ∧ oc.csvRows = .error e)) →
        extract_text_from_attachment mime oc = errPlaceholder e) ∧
    (∀ (mime : String) (oc : AttOutcome), strStarts mime "image/" = true →
        extract_text_from_attachment mime oc = "[This is an image attachment]") ∧
    (∀ (mime : String) (oc : AttOutcome),
        mime ≠ "application/pdf" → mime ≠ docxMime → mime ≠ "text/plain" →
        mime ≠ "text/csv" → strStarts mime "image/" = false →
        extract_text_from_attachment mime oc = "[Attachment of type " ++ mime ++ "]") := by
  refine ⟨?_, ?_, ?_⟩
  · rintro mime oc e (⟨rfl, h⟩ | ⟨rfl, h⟩ | ⟨rfl, h⟩ | ⟨rfl, h⟩) <;>
      simp [extract_text_from_attachment, docxMime, h]
  · intro mime oc h
    have h1 : mime ≠ "application/pdf" := by rintro rfl; exact absurd h (by decide)
    have h2 : mime ≠ docxMime := by rintro rfl; exact absurd h (by decide)
    have h3 : mime ≠ "text/plain" := by rintro rfl; exact absurd h (by decide)
    have h4 : mime ≠ "text/csv" := by rintro rfl; exact absurd h (by decide)
    simp [extract_text_from_attachment, h1, h2, h3, h4, h]
  · intro mime oc h1 h2 h3 h4 h5
    simp [extract_text_from_attachment, h1, h2, h3, h4, h5]

/-- Witness for C8: an image attachment and a failing PDF decode. -/
theorem C8_extractor_total_witness :
    strStarts "image/png" "image/" = true ∧
    extract_text_from_attachment "image/png" ⟨.ok [], .ok [], .ok "", .ok []⟩ =
      "[This is an image attachment]" ∧
    extract_text_from_attachment "application/pdf"
        ⟨.error "EOF marker not found", .ok [], .ok "", .ok []⟩ =
      "[Error extracting text: EOF marker not found]" :=
  ⟨by decide,
    C8_extractor_total.2.1 "image/png" ⟨.ok [], .ok [], .ok "", .ok []⟩ (by decide),
    C8_extractor_total.1 "application/pdf" _ "EOF marker not found" (Or.inl ⟨rfl, rfl⟩)⟩

/-- Creation effects of a list of attachments are exactly their paths. -/
theorem pathsOfCreates : ∀ (l : List Attachment),
    createdPaths (l.map (fun a => PEff.createTmp a.path)) = l.map (fun a => a.path) := by
  intro l
  induction l with
  | nil => rfl
  | cons a t ih => simp [createdPaths, List.filterMap_cons] at ih ⊢; exact ih

/-- Release effects of a list of attachments are exactly their paths. -/
theorem pathsOfReleases : ∀ (l : List Attachment),
    releasedPaths (l.map (fun a => PEff.releaseTmp a.path)) = l.map (fun a => a.path) := by
  intro l
  induction l with
  | nil => rfl
  | cons a t ih => simp [releasedPaths, List.filterMap_cons] at ih ⊢; exact ih

theorem createdPaths_decoder (l : List PEff) :
    createdPaths (PEff.fetchCall :: (l ++ [PEff.markSeen])) = createdPaths l := by
  simp [createdPaths, List.filterMap_cons, List.filterMap_append]

theorem releasedPaths_reason (l : List PEff) :
    releasedPaths (PEff.reasonCall :: l) = releasedPaths l := by
  simp [releasedPaths, List.filterMap_cons]

/-- C6: for a message whose decode materialized the attachments of
`parts`, the decoder creates exactly one temporary resource per
materialized attachment, and `analyze_with_anthropic` releases exactly
those paths — for every combination of per-attachment extraction outcomes
and reasoning-call outcome, i.e. on the success path and on every error
path. -/
theorem C6_resource_balance :
    ∀ (parts : List Part) (extRes : Nat → ExtRes) (api : ApiRes),
      createdPaths (get_email_content (.okDec parts)).2 =
          (materialize parts).map (fun a => a.path) ∧
      releasedPaths (analyze_with_anthropic extRes api ⟨materialize parts⟩).2.2 =
          (materialize parts).map (fun a => a.path) ∧
      (createdPaths (get_email_content (.okDec parts)).2).length =
          (parts.filter isMaterialized).length ∧
      (releasedPaths (analyze_with_anthropic extRes api ⟨materialize parts⟩).2.2).length =
          (parts.filter isMaterialized).length := by
  intro parts extRes api
  have hc : createdPaths (get_email_content (.okDec parts)).2 =
      (materialize parts).map (fun a => a.path) := by
    show createdPaths (PEff.fetchCall :: (createEffs parts ++ [PEff.markSeen])) = _
    rw [createdPaths_decoder]
    exact pathsOfCreates (materialize parts)
  have hr : releasedPaths (analyze_with_anthropic extRes api ⟨materialize parts⟩).2.2 =
      (materialize parts).map (fun a => a.path) := by
    show releasedPaths (PEff.reasonCall ::
      (materialize parts).map (fun a => PEff.releaseTmp a.path)) = _
    rw [releasedPaths_reason]
    exact pathsOfReleases (materialize parts)
  have hl : ((materialize parts).map (fun a => a.path)).length =
      (parts.filter isMaterialized).length := by
    simp [materialize]
  exact ⟨hc, hr, hc ▸ hl, hr ▸ hl⟩

/-- C9: the mark-as-read happens iff the fetch + decode succeeded, and then
only as the last effect, after the fetch and every materialization; a
non-OK fetch and a decode exception both return `None` with no mark; and
a scan attempts every message id regardless of per-message failures. -/
theorem C9_mark_after_success :
    (get_email_content .nonOK = (none, [PEff.fetchCall])) ∧
    (∀ done msg, (get_email_content (.exnAfter done msg)).1 = none ∧
        PEff.markSeen ∉ (get_email_content (.exnAfter done msg)).2) ∧
    (∀ fr, PEff.markSeen ∈ (get_email_content fr).2 ↔
        (get_email_content fr).1.isSome = true) ∧
    (∀ parts, (get_email_content (.okDec parts)).2 =
        PEff.fetchCall :: (createEffs parts ++ [PEff.markSeen])) ∧
    (∀ res ids, (processPendingOutcomes res ids).length = ids.length) := by
  refine ⟨rfl, ?_, ?_, fun parts => rfl, ?_⟩
  · intro done msg
    refine ⟨rfl, ?_⟩
    simp [get_email_content, createEffs]
  · intro fr
    cases fr with
    | nonOK => simp [get_email_content]
    | exnAfter done msg => simp [get_email_content, createEffs]
    | okDec parts => simp [get_email_content]
  · intro res ids
    simp [processPendingOutcomes]

/-- Chain of `k` consecutive connection failures starting with the counter
at `n = max - k`: each failure is one attempt, and the run ends in the
terminal `Failed` state, consuming nothing of the remaining script. -/
theorem lifecycle_fail_chain :
    ∀ (k max n : Nat) (rest : List ConnRes), n + k = max →
      lifecycleRun max n (List.replicate k .connFail ++ rest) =
        (List.replicate k .attemptConn, .failedTerminal) := by
  intro k
  induction k with
  | zero =>
    intro max n rest h
    have hm : max ≤ n := by omega
    cases rest with
    | nil => simp [lifecycleRun, hm]
    | cons e r => simp [lifecycleRun, hm]
  | succ k ih =>
    intro max n rest h
    have hn : ¬ max ≤ n := by omega
    have := ih max (n + 1) rest (by omega)
    simp [List.replicate_succ, lifecycleRun, hn, this]

/-- C5: after exactly `max` consecutive connection failures the manager is
in the terminal `Failed` state having made exactly `max` attempts, with no
further attempt regardless of the rest of the script; a successful connect
continues with the attempt counter reset (`afterSess`, which is `0` when
the session ends without an exception) and its first action after the
connect is the unread scan, before any wait. -/
theorem C5_reconnect_bound :
    (∀ (max : Nat) (rest : List ConnRes),
        lifecycleRun max 0 (List.replicate max .connFail ++ rest) =
          (List.replicate max .attemptConn, .failedTerminal)) ∧
    (∀ (max n : Nat) (s : Sess) (rest : List ConnRes), n < max →
        lifecycleRun max n (.connOk s :: rest) =
          (.attemptConn :: (sessTrace s ++ (lifecycleRun max (afterSess s) rest).1),
            (lifecycleRun max (afterSess s) rest).2)) ∧
    (∀ iters stop, (sessTrace (.loopRun iters stop)).head? = some .scanUnread) ∧
    (∀ iters, afterSess (.loopRun iters .noopFail) = 0) := by
  refine ⟨?_, ?_, ?_, fun iters => rfl⟩
  · intro max rest
    exact lifecycle_fail_chain max max 0 rest (by omega)
  · intro max n s rest h
    simp [lifecycleRun, Nat.not_le.mpr h]
  · intro iters stop
    cases stop <;> rfl

/-- Witness for C5 at the code's `MAX_RECONNECT_ATTEMPTS = 5`. -/
theorem C5_reconnect_bound_witness :
    (lifecycleRun MAX_RECONNECT_ATTEMPTS 0
        (List.replicate MAX_RECONNECT_ATTEMPTS .connFail ++ [ConnRes.connFail]) =
      (List.replicate MAX_RECONNECT_ATTEMPTS .attemptConn, .failedTerminal)) ∧
    (0 : Nat) < MAX_RECONNECT_ATTEMPTS ∧
    lifecycleRun MAX_RECONNECT_ATTEMPTS 0 [ConnRes.connOk (.loopRun 1 .noopFail)] =
      (Act.attemptConn :: (sessTrace (.loopRun 1 .noopFail) ++
          (lifecycleRun MAX_RECONNECT_ATTEMPTS (afterSess (.loopRun 1 .noopFail)) []).1),
        (lifecycleRun MAX_RECONNECT_ATTEMPTS (afterSess (.loopRun 1 .noopFail)) []).2) :=
  ⟨C5_reconnect_bound.1 MAX_RECONNECT_ATTEMPTS [ConnRes.connFail], by decide,
    C5_reconnect_bound.2.1 MAX_RECONNECT_ATTEMPTS 0 (.loopRun 1 .noopFail) [] (by decide)⟩

/-! ### Digits and date rendering -/

theorem digitChar_isDigit {k : Nat} (h : k ≤ 9) : (digitChar k).isDigit = true := by
  interval_cases k <;> decide

theorem dval_le9 {c : Char} (h : c.isDigit = true) : dval c ≤ 9 := by
  simp [Char.isDigit] at h
  obtain ⟨h1, h2⟩ := h
  have h3 : c.toNat ≤ 57 := h2
  unfold dval
  omega

theorem natDecAux_congr :
    ∀ (f1 f2 n : Nat), n < f1 → n < f2 → natDecAux f1 n = natDecAux f2 n := by
  intro f1
  induction f1 with
  | zero => intro f2 n h1 h2; exact absurd h1 (Nat.not_lt_zero n)
  | succ g ih =>
    intro f2 n h1 h2
    cases f2 with
    | zero => exact absurd h2 (Nat.not_lt_zero n)
    | succ g2 =>
      simp only [natDecAux]
      by_cases h10 : n < 10
      · simp [h10]
      · have hdiv : n / 10 < n := Nat.div_lt_self (by omega) (by omega)
        rw [if_neg h10, if_neg h10, ih g2 (n / 10) (by omega) (by omega)]

theorem natDec_lt10 (n : Nat) (h : n < 10) : natDec n = [digitChar n] := by
  simp [natDec, natDecAux, h]

theorem natDec_step (n : Nat) (h : ¬ n < 10) :
    natDec n = natDec (n / 10) ++ [digitChar (n % 10)] := by
  have hdiv : n / 10 < n := Nat.div_lt_self (by omega) (by omega)
  show natDecAux (n + 1) n = _
  rw [show natDecAux (n + 1) n =
    if n < 10 then [digitChar n] else natDecAux n (n / 10) ++ [digitChar (n % 10)] from rfl]
  rw [if_neg h]
  rw [natDecAux_congr n (n / 10 + 1) (n / 10) (by omega) (by omega)]
  rfl

theorem natDec4 (y : Nat) (h1 : 1000 ≤ y) (h2 : y < 10000) :
    natDec y = [digitChar (y / 1000), digitChar (y / 100 % 10), digitChar (y / 10 % 10),
      digitChar (y % 10)] := by
  rw [natDec_step y (by omega), natDec_step (y / 10) (by omega),
    natDec_step (y / 10 / 10) (by omega)]
  rw [natDec_lt10 (y / 10 / 10 / 10) (by omega)]
  simp [Nat.div_div_eq_div_mul]

/-- For years 1000-9999 (and in-range month/day) the rendered date has
exactly the `YYYY-MM-DD` shape. -/
theorem strftime_shape (y m d : Nat) (h1 : 1000 ≤ y) (h2 : y ≤ 9999) :
    normDateShape (strftime_Ymd y m d) = true := by
  have hy := natDec4 y h1 (by omega)
  have b1 : y / 1000 ≤ 9 := by omega
  have b2 : y / 100 % 10 ≤ 9 := by omega
  have b3 : y / 10 % 10 ≤ 9 := by omega
  have b4 : y % 10 ≤ 9 := by omega
  have b5 : m / 10 % 10 ≤ 9 := by omega
  have b6 : m % 10 ≤ 9 := by omega
  have b7 : d / 10 % 10 ≤ 9 := by omega
  have b8 : d % 10 ≤ 9 := by omega
  simp [strftime_Ymd, normDateShape, String.data_append, hy, digitChar_isDigit,
    b1, b2, b3, b4, b5, b6, b7, b8]

/-! ### Bounds delivered by `strptime_Ymd` -/

theorem parseDay_le (l : List Char) (d : Nat) (h : parseDay l = some d) : d ≤ 99 := by
  rcases l with _ | ⟨a, _ | ⟨b, _ | ⟨c, t⟩⟩⟩
  · cases h
  · simp only [parseDay] at h
    by_cases ha : monthOk1 a
    · rw [if_pos ha] at h
      have hda : a.isDigit = true := by
        simp [monthOk1] at ha
        exact ha.1
      have := dval_le9 hda
      cases h
      omega
    · rw [if_neg ha] at h; cases h
  · simp only [parseDay] at h
    by_cases hab : dayOk2 a b
    · rw [if_pos hab] at h
      simp only [dayOk2, Bool.or_eq_true, Bool.and_eq_true, decide_eq_true_eq] at hab
      have hda : dval a ≤ 9 := by
        rcases hab with (⟨rfl, _⟩ | ⟨ha, _⟩) | ⟨⟨rfl, _⟩, _⟩
        · decide
        · rcases ha with rfl | rfl <;> decide
        · decide
      have hdb : dval b ≤ 9 := by
        rcases hab with (⟨_, hb01⟩ | ⟨_, hbd⟩) | ⟨⟨_, hbd⟩, _⟩
        · rcases hb01 with rfl | rfl <;> decide
        · exact dval_le9 hbd
        · exact dval_le9 hbd
      cases h
      omega
    · rw [if_neg hab] at h; cases h
  · cases h

theorem parseMD_le (l : List Char) (m d : Nat) (h : parseMD l = some (m, d)) :
    m ≤ 99 := by
  rcases l with _ | ⟨a, _ | ⟨b, rest⟩⟩
  · cases h
  · cases h
  · simp only [parseMD] at h
    by_cases hb : b = '-'
    · rw [if_pos hb] at h
      by_cases ha : monthOk1 a
      · rw [if_pos ha] at h
        have hda : a.isDigit = true := by
          simp [monthOk1] at ha
          exact ha.1
        have := dval_le9 hda
        cases hpd : parseDay rest with
        | none => rw [hpd] at h; cases h
        | some dd =>
          rw [hpd] at h
          simp at h
          omega
      · rw [if_neg ha] at h; cases h
    · rw [if_neg hb] at h
      rcases rest with _ | ⟨c, rest2⟩
      · cases h
      · simp only [parseM2D] at h
        by_cases hc : c = '-'
        · rw [if_pos hc] at h
          by_cases hab : monthOk2 a b
          · rw [if_pos hab] at h
            simp only [monthOk2, Bool.or_eq_true, Bool.and_eq_true,
              decide_eq_true_eq] at hab
            have hda : dval a ≤ 1 := by
              rcases hab with ⟨rfl, _⟩ | ⟨⟨rfl, _⟩, _⟩ <;> decide
            have hdb : dval b ≤ 9 := by
              rcases hab with ⟨_, hb3⟩ | ⟨⟨_, hbd⟩, _⟩
              · rcases hb3 with (rfl | rfl) | rfl <;> decide
              · exact dval_le9 hbd
            cases hpd : parseDay rest2 with
            | none => rw [hpd] at h; cases h
            | some dd =>
              rw [hpd] at h
              simp at h
              omega
          · rw [if_neg hab] at h; cases h
        · rw [if_neg hc] at h; cases h

theorem daysInMonth_le (y m : Nat) : daysInMonth y m ≤ 31 := by
  unfold daysInMonth
  split
  · split <;> omega
  · split <;> omega

theorem strptime_bounds (s : String) (y m d : Nat)
    (h : strptime_Ymd s = some (y, m, d)) :
    1 ≤ y ∧ y ≤ 9999 ∧ m ≤ 99 ∧ d ≤ 99 := by
  unfold strptime_Ymd at h
  rcases hsd : s.data with _ | ⟨y1, _ | ⟨y2, _ | ⟨y3, _ | ⟨y4, _ | ⟨c5, rest⟩⟩⟩⟩⟩ <;>
    rw [hsd] at h <;> simp only [strptimeList] at h <;> try cases h
  by_cases hdig : (y1.isDigit && y2.isDigit && y3.isDigit && y4.isDigit) = true
  · rw [if_pos hdig] at h
    by_cases hc5 : c5 = '-'
    · rw [if_pos hc5] at h
      cases hmd : parseMD rest with
      | none => simp only [hmd] at h; cases h
      | some md =>
        obtain ⟨m2, d2⟩ := md
        simp only [hmd] at h
        split at h
        next hg =>
          simp only [Bool.and_eq_true, decide_eq_true_eq] at hg
          cases h
          simp only [Bool.and_eq_true] at hdig
          obtain ⟨⟨⟨hd1, hd2⟩, hd3⟩, hd4⟩ := hdig
          have e1 := dval_le9 hd1
          have e2 := dval_le9 hd2
          have e3 := dval_le9 hd3
          have e4 := dval_le9 hd4
          have hy : natOfDigits [y1, y2, y3, y4] =
              ((dval y1 * 10 + dval y2) * 10 + dval y3) * 10 + dval y4 := by
            simp [natOfDigits]
          have hm2 := parseMD_le rest m d hmd
          have hdm := daysInMonth_le (natOfDigits [y1, y2, y3, y4]) m
          refine ⟨by omega, by omega, hm2, by omega⟩
        next hg => cases h
    · rw [if_neg hc5] at h; cases h
  · rw [if_neg hdig] at h; cases h

/-! ### Inversion of `processItem` -/

theorem processItem_ok_inv (it : Item) (r : Row) (h : processItem it = .ok r) :
    ∃ s y m d av amt desc cat,
      it.date = some (.vstr s) ∧ strptime_Ymd s = some (y, m, d) ∧
      it.amount = some av ∧ jvalToFloat av = .ok amt ∧
      it.description = some desc ∧ it.category = some cat ∧
      r = ⟨strftime_Ymd y m d, desc, amt, cat, it.property.getD (.vstr "")⟩ := by
  cases hd : it.date with
  | none => simp only [processItem, hd] at h; cases h
  | some v =>
    cases v with
    | vnum lex => simp only [processItem, hd] at h; cases h
    | vstr s =>
      simp only [processItem, hd] at h
      cases hs : strptime_Ymd s with
      | none => simp only [hs] at h; cases h
      | some ymd =>
        obtain ⟨y, m, d⟩ := ymd
        simp only [hs] at h
        cases ha : it.amount with
        | none => simp only [ha] at h; cases h
        | some av =>
          simp only [ha] at h
          cases hf : jvalToFloat av with
          | error fe => cases fe <;> simp only [hf] at h <;> cases h
          | ok amt =>
            simp only [hf] at h
            cases hde : it.description with
            | none => simp only [hde] at h; cases h
            | some desc =>
              simp only [hde] at h
              cases hc : it.category with
              | none => simp only [hc] at h; cases h
              | some cat =>
                simp only [hc] at h
                cases h
                exact ⟨s, y, m, d, av, amt, desc, cat, rfl, hs, rfl, hf, rfl, rfl, rfl⟩

theorem processItem_badDate (it : Item) (s : String)
    (hd : it.date = some (.vstr s)) (hs : strptime_Ymd s = none) :
    processItem it = .error (.valueKey (.badDate s)) := by
  simp [processItem, hd, hs]

theorem processItem_badFloat (it : Item) (ds a : String) (y m d : Nat)
    (hd : it.date = some (.vstr ds)) (hs : strptime_Ymd ds = some (y, m, d))
    (ha : it.amount = some (.vstr a)) (hp : pyFloatOfStr a = none) :
    processItem it = .error (.valueKey (.badFloat a)) := by
  simp [processItem, hd, hs, ha, jvalToFloat, hp]

/-! ### Structure of the `add_to_spreadsheet` loop -/

theorem addGo_fst_errs_indep (f : Nat → Bool) :
    ∀ (items : List Item) (added : List Row) (errs errs2 : List ErrEntry) (k : Nat),
      (addGo f items added errs k).1 = (addGo f items added errs2 k).1 := by
  intro items
  induction items with
  | nil => intro added errs errs2 k; rfl
  | cons it rest ih =>
    intro added errs errs2 k
    cases hpi : processItem it with
    | error e =>
      cases e with
      | valueKey m => simp only [addGo, hpi]; exact ih added _ _ k
      | fatal m => simp [addGo, hpi]
    | ok row =>
      by_cases hk : f k
      · simp [addGo, hpi, hk]
      · simp only [addGo, hpi, if_neg hk]
        exact ih (added ++ [row]) errs errs2 (k + 1)

theorem addGo_skip_rows (f : Nat → Bool) (it : Item) (m : EMsg)
    (hpi : processItem it = .error (.valueKey m)) :
    ∀ (pre post : List Item) (added : List Row) (errs : List ErrEntry) (k : Nat),
      (addGo f (pre ++ it :: post) added errs k).1 =
        (addGo f (pre ++ post) added errs k).1 := by
  intro pre
  induction pre with
  | nil =>
    intro post added errs k
    simp only [List.nil_append]
    rw [show addGo f (it :: post) added errs k =
        addGo f post added (errs ++ [.itemE it m]) k from by simp [addGo, hpi]]
    exact addGo_fst_errs_indep f post added _ errs k
  | cons x xs ih =>
    intro post added errs k
    simp only [List.cons_append]
    cases hx : processItem x with
    | error e =>
      cases e with
      | valueKey m2 =>
        simp only [addGo, hx]
        exact ih post added _ k
      | fatal m2 => simp [addGo, hx]
    | ok row =>
      by_cases hk : f k
      · simp [addGo, hx, hk]
      · simp only [addGo, hx, if_neg hk]
        exact ih post (added ++ [row]) errs (k + 1)

theorem addGo_errs_mono (f : Nat → Bool) (hf : ∀ k, f k = false) :
    ∀ (items : List Item),
      (∀ it ∈ items, ∀ m, processItem it ≠ .error (.fatal m)) →
      ∀ (added : List Row) (errs : List ErrEntry) (k : Nat) (e : ErrEntry),
        e ∈ errs → e ∈ (addGo f items added errs k).2 := by
  intro items
  induction items with
  | nil => intro _ added errs k e he; exact he
  | cons it rest ih =>
    intro hnf added errs k e he
    cases hpi : processItem it with
    | error err =>
      cases err with
      | valueKey m =>
        simp only [addGo, hpi]
        exact ih (fun j hj => hnf j (List.mem_cons_of_mem it hj)) added _ k e
          (List.mem_append_left _ he)
      | fatal m => exact absurd hpi (hnf it (List.mem_cons_self it rest) m)
    | ok row =>
      simp only [addGo, hpi, hf k, Bool.false_eq_true, if_false]
      exact ih (fun j hj => hnf j (List.mem_cons_of_mem it hj)) (added ++ [row]) errs
        (k + 1) e he

theorem addGo_entry_mem (f : Nat → Bool) (hf : ∀ k, f k = false) (it : Item) (m : EMsg)
    (hpi : processItem it = .error (.valueKey m)) :
    ∀ (pre post : List Item),
      (∀ j ∈ pre ++ post, ∀ fm, processItem j ≠ .error (.fatal fm)) →
      ∀ (added : List Row) (errs : List ErrEntry) (k : Nat),
        ErrEntry.itemE it m ∈ (addGo f (pre ++ it :: post) added errs k).2 := by
  intro pre
  induction pre with
  | nil =>
    intro post hnf added errs k
    simp only [List.nil_append]
    rw [show addGo f (it :: post) added errs k =
        addGo f post added (errs ++ [.itemE it m]) k from by simp [addGo, hpi]]
    refine addGo_errs_mono f hf post ?_ added _ k _ (by simp)
    intro j hj
    exact hnf j (by simpa using hj)
  | cons x xs ih =>
    intro post hnf added errs k
    simp only [List.cons_append]
    cases hx : processItem x with
    | error e =>
      cases e with
      | valueKey m2 =>
        simp only [addGo, hx]
        exact ih post (fun j hj => hnf j (by simp at hj ⊢; tauto)) added _ k
      | fatal m2 =>
        exact absurd hx (hnf x (by simp) m2)
    | ok row =>
      simp only [addGo, hx, hf k, Bool.false_eq_true, if_false]
      exact ih post (fun j hj => hnf j (by simp at hj ⊢; tauto)) (added ++ [row]) errs (k + 1)

/-! ### The ledger-writer claims -/

/-- C2: with a healthy store, three items of which the second has a
non-numeric amount (and a well-formed date) and the first and third are
valid produce exactly the two rows of the valid items, in their input
order, and exactly one error entry, which echoes the second item. -/
theorem C2_partial_failure_isolation :
    ∀ (f : Nat → Bool) (i1 i2 i3 : Item) (r1 r3 : Row) (ds a : String) (y m d : Nat),
      (∀ k, f k = false) →
      processItem i1 = .ok r1 → processItem i3 = .ok r3 →
      i2.date = some (.vstr ds) → strptime_Ymd ds = some (y, m, d) →
      i2.amount = some (.vstr a) → pyFloatOfStr a = none →
      add_to_spreadsheet f [i1, i2, i3] = ([r1, r3], [.itemE i2 (.badFloat a)]) := by
  intro f i1 i2 i3 r1 r3 ds a y m d hf h1 h3 hd hs ha hp
  have h2 := processItem_badFloat i2 ds a y m d hd hs ha hp
  simp [add_to_spreadsheet, addGo, h1, h2, h3, hf]

/-- Witness for C2 at concrete items (`wBadAmt` has amount `"N/A"`). -/
theorem C2_partial_failure_isolation_witness :
    (∀ k, (fun _ : Nat => false) k = false) ∧
    processItem wGood1 = .ok wRow1 ∧ processItem wGood2 = .ok wRow2 ∧
    wBadAmt.date = some (.vstr "2024-03-02") ∧
    strptime_Ymd "2024-03-02" = some (2024, 3, 2) ∧
    wBadAmt.amount = some (.vstr "N/A") ∧ pyFloatOfStr "N/A" = none ∧
    add_to_spreadsheet (fun _ => false) [wGood1, wBadAmt, wGood2] =
      ([wRow1, wRow2], [.itemE wBadAmt (.badFloat "N/A")]) :=
  ⟨fun _ => rfl, by decide, by decide, rfl, by decide, rfl, by decide,
    C2_partial_failure_isolation (fun _ => false) wGood1 wBadAmt wGood2 wRow1 wRow2
      "2024-03-02" "N/A" 2024 3 2 (fun _ => rfl) (by decide) (by decide) rfl (by decide)
      rfl (by decide)⟩

/-- C3 as stated is false on the code: `"0001-01-01"` matches the supported
format, yet glibc's unpadded `%Y` makes the appended row's date
`"1-01-01"`, which is not of the `YYYY-MM-DD` shape. -/
theorem C3_counterexample :
    strptime_Ymd "0001-01-01" = some (1, 1, 1) ∧
    (add_to_spreadsheet (fun _ => false) [wYearOne]).1.map (fun r => r.date) =
      ["1-01-01"] ∧
    ¬ (∀ r ∈ (add_to_spreadsheet (fun _ => false) [wYearOne]).1,
        normDateShape r.date = true) := by
  refine ⟨by decide, by decide, ?_⟩
  intro hall
  have h1 : (add_to_spreadsheet (fun _ => false) [wYearOne]).1 =
      [⟨"1-01-01", .vstr "Ancient levy", .fin (mkRat 1 1), .vstr "Misc", .vstr ""⟩] := by
    decide
  have := hall _ (by rw [h1]; exact List.mem_singleton_self _)
  exact absurd this (by decide)

/-- C3 (amended): a supported date string is normalized in the appended
row via `strftime`, whose result has the `YYYY-MM-DD` shape whenever the
year is at least 1000 (below that, glibc's `%Y` drops the leading
zeros); a date string matching no accepted format routes the item to the
errors list with the item echoed, contributes no row, and processing
continues with the remaining items. -/
theorem C3_date_normalization :
    (∀ (it : Item) (r : Row) (s : String) (y m d : Nat),
        processItem it = .ok r → it.date = some (.vstr s) →
        strptime_Ymd s = some (y, m, d) →
        r.date = strftime_Ymd y m d ∧ (1000 ≤ y → normDateShape r.date = true)) ∧
    (∀ (it : Item) (s : String), it.date = some (.vstr s) → strptime_Ymd s = none →
        processItem it = .error (.valueKey (.badDate s))) ∧
    (∀ (f : Nat → Bool) (pre post : List Item) (it : Item) (s : String),
        it.date = some (.vstr s) → strptime_Ymd s = none →
        (add_to_spreadsheet f (pre ++ it :: post)).1 =
          (add_to_spreadsheet f (pre ++ post)).1) ∧
    (∀ (f : Nat → Bool) (pre post : List Item) (it : Item) (s : String),
        (∀ k, f k = false) → it.date = some (.vstr s) → strptime_Ymd s = none →
        (∀ j ∈ pre ++ post, ∀ fm, processItem j ≠ .error (.fatal fm)) →
        ErrEntry.itemE it (.badDate s) ∈
          (add_to_spreadsheet f (pre ++ it :: post)).2) := by
  refine ⟨?_, fun it s hd hs => processItem_badDate it s hd hs, ?_, ?_⟩
  · intro it r s y m d h hd hs
    obtain ⟨s2, y2, m2, d2, av, amt, desc, cat, h1, h2, _, _, _, _, hr⟩ :=
      processItem_ok_inv it r h
    rw [hd] at h1
    injection h1 with h1b
    injection h1b with h1c
    subst h1c
    rw [hs] at h2
    simp only [Option.some.injEq, Prod.mk.injEq] at h2
    obtain ⟨rfl, rfl, rfl⟩ := h2
    refine ⟨by rw [hr], fun h1000 => ?_⟩
    obtain ⟨_, hy2, _, _⟩ := strptime_bounds s y m d hs
    rw [hr]
    exact strftime_shape y m d h1000 hy2
  · intro f pre post it s hd hs
    exact addGo_skip_rows f it (.badDate s) (processItem_badDate it s hd hs) pre post [] [] 0
  · intro f pre post it s hf hd hs hnf
    exact addGo_entry_mem f hf it (.badDate s) (processItem_badDate it s hd hs) pre post
      hnf [] [] 0

/-- Witness for the amended C3 at concrete items. -/
theorem C3_date_normalization_witness :
    (processItem wGood1 = .ok wRow1 ∧ wGood1.date = some (.vstr "2024-03-01") ∧
      strptime_Ymd "2024-03-01" = some (2024, 3, 1) ∧
      wRow1.date = strftime_Ymd 2024 3 1 ∧ normDateShape wRow1.date = true) ∧
    (wBadDate.date = some (.vstr "03/01/2024") ∧ strptime_Ymd "03/01/2024" = none ∧
      ErrEntry.itemE wBadDate (.badDate "03/01/2024") ∈
        (add_to_spreadsheet (fun _ => false) ([wGood1] ++ wBadDate :: [wGood2])).2) := by
  have hg1 : processItem wGood1 = .ok wRow1 := by decide
  have hg2 : processItem wGood2 = .ok wRow2 := by decide
  have hmain := C3_date_normalization.1 wGood1 wRow1 "2024-03-01" 2024 3 1 hg1 rfl (by decide)
  refine ⟨⟨hg1, rfl, by decide, hmain.1, hmain.2 (by norm_num)⟩, rfl, by decide, ?_⟩
  refine C3_date_normalization.2.2.2 (fun _ => false) [wGood1] [wGood2] wBadDate
    "03/01/2024" (fun _ => rfl) rfl (by decide) ?_
  intro j hj fm hcon
  simp at hj
  rcases hj with rfl | rfl
  · rw [hg1] at hcon; cases hcon
  · rw [hg2] at hcon; cases hcon

/-- C7: `add_to_spreadsheet` returns the `(addedRows, errors)` pair for
every input (all exception paths of the embedding end in a `return`); an
exception other than `ValueError`/`KeyError` while processing an item —
and in particular a store-level `append_row` failure — aborts the
remaining items and yields the rows already appended plus exactly one
aggregate error entry (discarding the per-item errors collected so
far). -/
theorem C7_store_failure_aborts :
    (∀ (f : Nat → Bool) (items : List Item),
        add_to_spreadsheet f items = addGo f items [] [] 0) ∧
    (∀ (f : Nat → Bool) (it : Item) (rest : List Item) (added : List Row)
        (errs : List ErrEntry) (k : Nat) (m : FatalMsg),
        processItem it = .error (.fatal m) →
        addGo f (it :: rest) added errs k = (added, [.general m])) ∧
    (∀ (f : Nat → Bool) (it : Item) (rest : List Item) (added : List Row)
        (errs : List ErrEntry) (k : Nat) (row : Row),
        processItem it = .ok row → f k = true →
        addGo f (it :: rest) added errs k = (added, [.general .storeErr])) := by
  refine ⟨fun f items => rfl, ?_, ?_⟩
  · intro f it rest added errs k m h
    simp [addGo, h]
  · intro f it rest added errs k row h hk
    simp [addGo, h, hk]

/-- Witness for C7: a `TypeError` date aborts with the collected errors
discarded, and a store failure aborts with one aggregate entry. -/
theorem C7_store_failure_aborts_witness :
    (add_to_spreadsheet (fun _ => false) [] = addGo (fun _ => false) [] [] [] 0) ∧
    (processItem wNumDate = .error (.fatal .typeErr) ∧
      addGo (fun _ => false) [wNumDate, wGood2] [wRow1]
          [.itemE wBadAmt (.badFloat "N/A")] 1 = ([wRow1], [.general .typeErr])) ∧
    (processItem wGood1 = .ok wRow1 ∧ (fun _ : Nat => true) 0 = true ∧
      addGo (fun _ => true) [wGood1, wGood2] [] [] 0 = ([], [.general .storeErr])) :=
  ⟨C7_store_failure_aborts.1 (fun _ => false) [],
    ⟨by decide, C7_store_failure_aborts.2.1 (fun _ => false) wNumDate [wGood2] [wRow1]
      [.itemE wBadAmt (.badFloat "N/A")] 1 .typeErr (by decide)⟩,
    ⟨by decide, rfl, C7_store_failure_aborts.2.2 (fun _ => true) wGood1 [wGood2] [] [] 0
      wRow1 (by decide) rfl⟩⟩

/-- C10: a missing `property` key is not an error — the row is appended
with the empty string in its place; a missing `date`, `description`,
`amount` or `category` key never yields a row, and (unless an earlier
step of the same item raises a non-`ValueError`/`KeyError` exception)
routes the item to the per-item errors, where it contributes an echoed
entry and leaves the appended rows unchanged. -/
theorem C10_missing_keys :
    (∀ (it : Item) (s : String) (y m d : Nat) (av : JVal) (amt : PyFloat)
        (desc cat : JVal),
        it.date = some (.vstr s) → strptime_Ymd s = some (y, m, d) →
        it.amount = some av → jvalToFloat av = .ok amt →
        it.description = some desc → it.category = some cat → it.property = none →
        processItem it = .ok ⟨strftime_Ymd y m d, desc, amt, cat, .vstr ""⟩) ∧
    (∀ it : Item,
        (it.date = none ∨ it.description = none ∨ it.amount = none ∨
          it.category = none) →
        (∀ r : Row, processItem it ≠ .ok r) ∧
        ((∀ fm, processItem it ≠ .error (.fatal fm)) →
          ∃ m, processItem it = .error (.valueKey m))) ∧
    (∀ (f : Nat → Bool) (pre post : List Item) (it : Item) (m : EMsg),
        processItem it = .error (.valueKey m) →
        (add_to_spreadsheet f (pre ++ it :: post)).1 =
          (add_to_spreadsheet f (pre ++ post)).1 ∧
        ((∀ k, f k = false) →
          (∀ j ∈ pre ++ post, ∀ fm, processItem j ≠ .error (.fatal fm)) →
          ErrEntry.itemE it m ∈ (add_to_spreadsheet f (pre ++ it :: post)).2)) := by
  refine ⟨?_, ?_, ?_⟩
  · intro it s y m d av amt desc cat hd hs ha hf hde hc hp
    simp [processItem, hd, hs, ha, hf, hde, hc, hp]
  · intro it hmiss
    have hok : ∀ r : Row, processItem it ≠ .ok r := by
      intro r h
      obtain ⟨s2, y2, m2, d2, av, amt, desc, cat, h1, _, h3, _, h5, h6, _⟩ :=
        processItem_ok_inv it r h
      rcases hmiss with hm | hm | hm | hm
      · rw [hm] at h1; cases h1
      · rw [hm] at h5; cases h5
      · rw [hm] at h3; cases h3
      · rw [hm] at h6; cases h6
    refine ⟨hok, fun hnf => ?_⟩
    cases hpe : processItem it with
    | ok r => exact absurd hpe (hok r)
    | error e =>
      cases e with
      | valueKey m => exact ⟨m, rfl⟩
      | fatal m => exact absurd hpe (hnf m)
  · intro f pre post it m hpi
    refine ⟨addGo_skip_rows f it m hpi pre post [] [] 0, fun hf hnf => ?_⟩
    exact addGo_entry_mem f hf it m hpi pre post hnf [] [] 0

/-- Witness for C10: `wNoProp` lacks only `property` and yields a row with
the empty string; `wNoDesc` lacks `description` and yields a `KeyError`
entry, not a row. -/
theorem C10_missing_keys_witness :
    processItem wNoProp =
      .ok ⟨strftime_Ymd 2024 3 1, .vstr "Electricity", .fin (mkRat (-120) 1),
        .vstr "Utilities", .vstr ""⟩ ∧
    (wNoDesc.description = none ∧
      processItem wNoDesc = .error (.valueKey (.keyMissing "description")) ∧
      (∃ m, processItem wNoDesc = .error (.valueKey m)) ∧
      (add_to_spreadsheet (fun _ => false) ([wGood1] ++ wNoDesc :: [wGood2])).1 =
        (add_to_spreadsheet (fun _ => false) ([wGood1] ++ [wGood2])).1) := by
  have hnd : processItem wNoDesc = .error (.valueKey (.keyMissing "description")) := by
    decide
  refine ⟨?_, rfl, hnd, ?_, ?_⟩
  · exact C10_missing_keys.1 wNoProp "2024-03-01" 2024 3 1 (.vnum "-120.00")
      (.fin (mkRat (-120) 1)) (.vstr "Electricity") (.vstr "Utilities") rfl (by decide)
      rfl (by decide) rfl rfl rfl
  · exact (C10_missing_keys.2.1 wNoDesc (Or.inr (Or.inl rfl))).2
      (fun fm hcon => by rw [hnd] at hcon; cases hcon)
  · exact (C10_missing_keys.2.2 (fun _ => false) [wGood1] [wGood2] wNoDesc
      (.keyMissing "description") hnd).1

/-! ### Behaviour of the array regex on concatenations

The claim-C1 equivalence rests on two facts about `regexFind`: a prefix
without `[` cannot host a match start, and a suffix without `]` cannot
host a match end (every complete match ends in a `]`), so the search is
entirely determined by the middle segment. -/

theorem wsLen_le (l : List Char) : wsLen l ≤ l.length := by
  induction l with
  | nil => simp [wsLen]
  | cons c t ih =>
    by_cases hc : reWs c
    · simp only [wsLen, List.length_cons, hc, if_true]
      omega
    · simp [wsLen, hc]

theorem drop_head_lt {l : List Char} {n : Nat} {c : Char}
    (h : (l.drop n).head? = some c) : n < l.length := by
  by_contra hn
  rw [List.drop_eq_nil_of_le (by omega)] at h
  cases h

theorem head?_append_ne {x post : List Char} (h : x ≠ []) :
    (x ++ post).head? = x.head? := by
  cases x with
  | nil => exact absurd rfl h
  | cons a t => rfl

theorem drop_ne_nil_of_lt {l : List Char} {n : Nat} (h : n < l.length) :
    l.drop n ≠ [] := by
  intro hnil
  have hl := List.length_drop n l
  rw [hnil] at hl
  simp at hl
  omega

theorem matchClose_le (cs : List Char) (n : Nat) (h : matchClose cs = some n) :
    n ≤ cs.length := by
  cases cs with
  | nil => cases h
  | cons c rest =>
    simp only [matchClose] at h
    by_cases hc : c = '}'
    · rw [if_pos hc] at h
      by_cases hh : (rest.drop (wsLen rest)).head? = some ']'
      · rw [if_pos hh] at h
        injection h with hn
        have hlt := drop_head_lt hh
        simp only [List.length_cons]
        omega
      · rw [if_neg hh] at h; cases h
    · rw [if_neg hc] at h; cases h

theorem lazyClose_le (cs : List Char) : ∀ (n : Nat), lazyClose cs = some n →
    n ≤ cs.length := by
  induction cs with
  | nil => intro n h; cases h
  | cons c rest ih =>
    intro n h
    simp only [lazyClose] at h
    cases hm : matchClose (c :: rest) with
    | some k =>
      rw [hm] at h
      injection h with hn
      subst hn
      exact matchClose_le _ _ hm
    | none =>
      rw [hm] at h
      cases hl : lazyClose rest with
      | none => rw [hl] at h; cases h
      | some k =>
        rw [hl] at h
        simp at h
        have := ih k hl
        simp only [List.length_cons]
        omega

theorem matchHead_le (cs : List Char) (n : Nat) (h : matchHead cs = some n) :
    n ≤ cs.length := by
  cases cs with
  | nil => cases h
  | cons c rest =>
    simp only [matchHead] at h
    by_cases hc : c = '['
    · rw [if_pos hc] at h
      by_cases hh : (rest.drop (wsLen rest)).head? = some '{'
      · rw [if_pos hh] at h
        cases hl : lazyClose (rest.drop (wsLen rest + 1)) with
        | none => rw [hl] at h; cases h
        | some k =>
          rw [hl] at h
          simp at h
          have hk := lazyClose_le _ k hl
          rw [List.length_drop] at hk
          have hw := drop_head_lt hh
          simp only [List.length_cons]
          omega
      · rw [if_neg hh] at h; cases h
    · rw [if_neg hc] at h; cases h

theorem matchClose_none (cs : List Char) (h : ']' ∉ cs) : matchClose cs = none := by
  cases cs with
  | nil => rfl
  | cons c rest =>
    simp only [matchClose]
    by_cases hc : c = '}'
    · rw [if_pos hc]
      by_cases hh : (rest.drop (wsLen rest)).head? = some ']'
      · exact absurd
          (List.mem_cons_of_mem c (List.mem_of_mem_drop (List.mem_of_mem_head? hh))) h
      · rw [if_neg hh]
    · rw [if_neg hc]

theorem lazyClose_none (cs : List Char) (h : ']' ∉ cs) : lazyClose cs = none := by
  induction cs with
  | nil => rfl
  | cons c rest ih =>
    simp only [lazyClose]
    rw [matchClose_none (c :: rest) h, ih (fun hm => h (List.mem_cons_of_mem c hm))]
    rfl

theorem matchHead_none (cs : List Char) (h : ']' ∉ cs) : matchHead cs = none := by
  cases cs with
  | nil => rfl
  | cons c rest =>
    simp only [matchHead]
    by_cases hc : c = '['
    · rw [if_pos hc]
      by_cases hh : (rest.drop (wsLen rest)).head? = some '{'
      · rw [if_pos hh]
        rw [lazyClose_none (rest.drop (wsLen rest + 1)) (fun hm =>
          h (List.mem_cons_of_mem c (List.mem_of_mem_drop hm)))]
        rfl
      · rw [if_neg hh]
    · rw [if_neg hc]

theorem regexFind_nil_of_no_close (cs : List Char) (h : ']' ∉ cs) :
    regexFind cs = none := by
  induction cs with
  | nil => rfl
  | cons c rest ih =>
    simp only [regexFind]
    rw [matchHead_none (c :: rest) h]
    exact ih (fun hm => h (List.mem_cons_of_mem c hm))

theorem wsLen_append_lt (a b : List Char) (h : wsLen a < a.length) :
    wsLen (a ++ b) = wsLen a := by
  induction a with
  | nil => simp at h
  | cons c t ih =>
    by_cases hc : reWs c
    · have hlt : wsLen t < t.length := by
        simp only [wsLen, List.length_cons, hc, if_true] at h
        omega
      calc wsLen (c :: t ++ b) = wsLen (t ++ b) + 1 := by simp [wsLen, hc]
        _ = wsLen t + 1 := by rw [ih hlt]
        _ = wsLen (c :: t) := by simp [wsLen, hc]
    · calc wsLen (c :: t ++ b) = 0 := by simp [wsLen, hc]
        _ = wsLen (c :: t) := by simp [wsLen, hc]

theorem wsLen_append_eq (a b : List Char) (h : wsLen a = a.length) :
    wsLen (a ++ b) = a.length + wsLen b := by
  induction a with
  | nil => simp
  | cons c t ih =>
    by_cases hc : reWs c
    · have h' : wsLen t = t.length := by
        simp only [wsLen, List.length_cons, hc, if_true] at h
        omega
      calc wsLen (c :: t ++ b) = wsLen (t ++ b) + 1 := by simp [wsLen, hc]
        _ = t.length + wsLen b + 1 := by rw [ih h']
        _ = (c :: t).length + wsLen b := by simp [List.length_cons]; omega
    · simp [wsLen, hc] at h

theorem matchClose_append (s post : List Char) (hpost : ']' ∉ post) :
    matchClose (s ++ post) = matchClose s := by
  cases s with
  | nil =>
    simp only [List.nil_append]
    rw [matchClose_none post hpost]
    rfl
  | cons c rest =>
    simp only [List.cons_append, matchClose]
    by_cases hc : c = '}'
    · rw [if_pos hc, if_pos hc]
      rcases Nat.lt_or_ge (wsLen rest) rest.length with hlt | hge
      · rw [wsLen_append_lt rest post hlt,
          List.drop_append_of_le_length (Nat.le_of_lt hlt),
          head?_append_ne (drop_ne_nil_of_lt hlt)]
      · have heq : wsLen rest = rest.length := Nat.le_antisymm (wsLen_le rest) hge
        rw [wsLen_append_eq rest post heq]
        rw [show rest.length + wsLen post = rest.length + wsLen post from rfl,
          List.drop_append (wsLen post)]
        have hno : ¬ (post.drop (wsLen post)).head? = some ']' := by
          intro hh
          exact hpost (List.mem_of_mem_drop (List.mem_of_mem_head? hh))
        rw [if_neg hno, heq, List.drop_length]
        have hnil : (([] : List Char)).head? ≠ some ']' := by simp
        rw [if_neg hnil]
    · rw [if_neg hc, if_neg hc]

theorem lazyClose_append (s post : List Char) (hpost : ']' ∉ post) :
    lazyClose (s ++ post) = lazyClose s := by
  induction s with
  | nil =>
    simp only [List.nil_append]
    rw [lazyClose_none post hpost]
    rfl
  | cons c rest ih =>
    simp only [List.cons_append, List.append_eq, lazyClose]
    rw [show c :: (rest ++ post) = (c :: rest) ++ post from rfl,
      matchClose_append (c :: rest) post hpost]
    cases hm : matchClose (c :: rest) with
    | some k => rfl
    | none => rw [ih]

theorem matchHead_append (s post : List Char) (hpost : ']' ∉ post) :
    matchHead (s ++ post) = matchHead s := by
  cases s with
  | nil =>
    simp only [List.nil_append]
    rw [matchHead_none post hpost]
    rfl
  | cons c rest =>
    simp only [List.cons_append, matchHead]
    by_cases hc : c = '['
    · rw [if_pos hc, if_pos hc]
      rcases Nat.lt_or_ge (wsLen rest) rest.length with hlt | hge
      · rw [wsLen_append_lt rest post hlt,
          List.drop_append_of_le_length (Nat.le_of_lt hlt),
          head?_append_ne (drop_ne_nil_of_lt hlt)]
        by_cases hh : (rest.drop (wsLen rest)).head? = some '{'
        · rw [if_pos hh, if_pos hh,
            List.drop_append_of_le_length (by omega : wsLen rest + 1 ≤ rest.length),
            lazyClose_append _ post hpost]
        · rw [if_neg hh, if_neg hh]
      · have heq : wsLen rest = rest.length := Nat.le_antisymm (wsLen_le rest) hge
        rw [wsLen_append_eq rest post heq, List.drop_append (wsLen post)]
        have hrhs : rest.drop (wsLen rest) = [] := by
          rw [heq, List.drop_length]
        rw [hrhs]
        have hnil : (([] : List Char)).head? ≠ some '{' := by simp
        rw [if_neg hnil]
        by_cases hh : (post.drop (wsLen post)).head? = some '{'
        · rw [if_pos hh]
          rw [show rest.length + wsLen post + 1 = rest.length + (wsLen post + 1) from by
            omega, List.drop_append (wsLen post + 1)]
          rw [lazyClose_none (post.drop (wsLen post + 1))
            (fun hm => hpost (List.mem_of_mem_drop hm))]
          rfl
        · rw [if_neg hh]
    · rw [if_neg hc, if_neg hc]

theorem regexFind_append (s post : List Char) (hpost : ']' ∉ post) :
    regexFind (s ++ post) = regexFind s := by
  induction s with
  | nil =>
    simp only [List.nil_append]
    exact regexFind_nil_of_no_close post hpost
  | cons c rest ih =>
    simp only [List.cons_append, List.append_eq, regexFind]
    rw [show c :: (rest ++ post) = (c :: rest) ++ post from rfl,
      matchHead_append (c :: rest) post hpost]
    cases hm : matchHead (c :: rest) with
    | some n =>
      show some (((c :: rest) ++ post).take n) = some ((c :: rest).take n)
      rw [List.take_append_of_le_length (matchHead_le _ _ hm)]
    | none => exact ih

theorem regexFind_pre (pre t : List Char) (hpre : '[' ∉ pre) :
    regexFind (pre ++ t) = regexFind t := by
  induction pre with
  | nil => rfl
  | cons c rest ih =>
    have hc : c ≠ '[' := by
      intro hh
      subst hh
      exact hpre (List.mem_cons_self _ _)
    simp only [List.cons_append, List.append_eq, regexFind]
    rw [show matchHead (c :: (rest ++ t)) = none from by
      simp only [matchHead]; rw [if_neg hc]]
    exact ih (fun hm => hpre (List.mem_cons_of_mem c hm))

/-- C1 as stated is false on the code: the extraction never attempts a
direct `json.loads` of the whole response.  At `c1resp` the whole response
is a valid JSON array, but the lazy regex match stops inside a string
literal, `json.loads` of the matched substring fails, and the code
returns `[]`, while the spec's direct-parse-first algorithm returns the
array. -/
theorem C1_counterexample :
    analyze_extract c1resp ≠ extract_direct_first c1resp := by
  intro hcontra
  have h1 : analyze_extract c1resp = [] := by rfl
  have h2 : extract_direct_first c1resp = [Json.jobj [("a", Json.jstr "\x7d ]")]] := by rfl
  rw [h1, h2] at hcontra
  cases hcontra

/-- C1 (amended): the extraction searches the response for the first
lazily-matched embedded array pattern and parses that substring, without
a prior direct parse of the whole response; consequently a fenced code
block containing a JSON array parses to exactly the same line-item
sequence as the bare array surrounded by prose, provided the text before
the array contains no `[` and the text after it contains no `]`. -/
theorem C1_extraction_equivalence :
    ∀ (pre1 post1 pre2 post2 s : String),
      '[' ∉ pre1.data → ']' ∉ post1.data → '[' ∉ pre2.data → ']' ∉ post2.data →
      analyze_extract (pre1 ++ s ++ post1) = analyze_extract (pre2 ++ s ++ post2) := by
  have key : ∀ (pre s post : String), '[' ∉ pre.data → ']' ∉ post.data →
      regexFindStr (pre ++ s ++ post) = regexFindStr s := by
    intro pre s post hp hq
    unfold regexFindStr
    rw [show (pre ++ s ++ post).data = pre.data ++ (s.data ++ post.data) from by
      simp [String.data_append]]
    rw [regexFind_pre _ _ hp, regexFind_append _ _ hq]
  intro pre1 post1 pre2 post2 s h1 h2 h3 h4
  unfold analyze_extract
  rw [key pre1 s post1 h1 h2, key pre2 s post2 h3 h4]

/-- Witness for the amended C1: the same array inside a fenced code block
and surrounded by prose extracts identically. -/
theorem C1_extraction_equivalence_witness :
    ('[' ∉ c1fencePre.data ∧ ']' ∉ c1fencePost.data ∧
      '[' ∉ c1prosePre.data ∧ ']' ∉ c1prosePost.data) ∧
    analyze_extract (c1fencePre ++ c1arr ++ c1fencePost) =
      analyze_extract (c1prosePre ++ c1arr ++ c1prosePost) :=
  ⟨⟨by decide, by decide, by decide, by decide⟩,
    C1_extraction_equivalence c1fencePre c1fencePost c1prosePre c1prosePost c1arr
      (by decide) (by decide) (by decide) (by decide)⟩

end AiReceipts
